import Mathlib

/-!
# A verification model of the effection structured-concurrency core

The repository's core (spec sections 2-7) is a cooperative scheduler driving
suspendable computations ("operations") organised into a tree of tasks, with
halt semantics, LIFO cleanup unwinding, and a broadcast channel primitive.
The runtime itself is not present in the repository snapshot (only its test
suite is), so the definitions below are modelled from the specification,
tuned so that every observable behaviour asserted by the test suite under
`src/unnamed/part_001` is reproduced by the model.

The model is a deterministic micro-step machine: a `World` holds the task
tree, channel state, a virtual clock and an explicit LIFO job stack; one
`microStep` either executes one instruction of the task on top of the stack,
performs one bookkeeping action of the halt/settlement protocol, or - when
the stack is empty - fires due microtasks and timers.
-/

set_option maxRecDepth 100000

namespace Effection

/-- Modelled from the spec: error values raised by user code, plus the
`halted` sentinel that cancellation surfaces to external awaiters
(spec section 7, "Error kinds"). -/
inductive ErrV where
  | boom
  | bang
  | halted
  | custom (n : Nat)
deriving DecidableEq, Repr

/-- Messages sent over the channel in the test scenarios: a type tag
(0 = "test", 1 = "CANCEL", 2 = observation marker) and a payload. -/
structure Action where
  type : Nat
  payload : Nat
deriving DecidableEq, Repr

/-- Modelled from the spec: terminal settlement of a task is
`Ok value`, `Err error`, or the `Halted` marker (spec section 3). -/
inductive Outcome where
  | ok (v : Nat)
  | err (e : ErrV)
  | halted
deriving DecidableEq, Repr

/-- Modelled from the spec: the pending settlement cause of a Halting task,
a point on the lattice `Halted < Err` (spec section 9, dominant-error rule). -/
inductive Cause where
  | chalted
  | cerr (e : ErrV)
deriving DecidableEq, Repr

/-- The outcome a cause settles to when no cleanup error supersedes it. -/
def Cause.out : Cause → Outcome
  | .chalted => .halted
  | .cerr e => .err e

/-- Modelled from the spec: task lifecycle state,
`Running`, `Halting(cause)` or `Settled(outcome)` (spec section 3). -/
inductive TState where
  | running
  | halting (c : Cause)
  | settled (o : Outcome)
deriving DecidableEq, Repr

/-- What an external awaiter of `run` observes: the value, or an error
(with cancellation surfaced as the `halted` error, spec section 7). -/
inductive RunRes where
  | rok (v : Nat)
  | rerr (e : ErrV)
deriving DecidableEq, Repr

/-- Observable events recorded while the machine runs: user-visible side
effects (array pushes in the tests) and task settlements. -/
inductive Ev where
  | emitE (a : Action)
  | settleE (i : Nat) (o : Outcome)
deriving DecidableEq, Repr

/-- Modelled from the spec: an Operation is a description of a suspendable
computation, given here as an instruction tree in continuation style
(spec section 3 "Operation" and section 6 public surface).
`suspend` is the distinguished forever-suspend; `sleep` a timer-backed
suspension; `expect` bridges an externally settled future; `spawn` creates
a child task and resumes with its id; `halt`/`haltAwait` request
cancellation of a task (fire-and-forget versus awaited); `await` suspends
on another task's settlement; `send`/`subscribe`/`next` are the channel
surface; `emit` records an observable side effect; `tryFinally` and
`tryCatch` register cleanup and handlers, and delegation to a nested
operation is inlining of its tree. -/
inductive Operation where
  | ret (v : Nat)
  | throwE (e : ErrV)
  | suspend (k : Operation)
  | sleep (ms : Nat) (k : Operation)
  | expect (r : RunRes) (k : Nat → Operation)
  | spawn (child : Operation) (k : Nat → Operation)
  | halt (t : Nat) (k : Operation)
  | haltAwait (t : Nat) (k : Operation)
  | await (t : Nat) (k : Nat → Operation)
  | send (m : Action) (k : Operation)
  | subscribe (k : Nat → Operation)
  | next (s : Nat) (k : Option Action → Operation)
  | emit (a : Action) (k : Operation)
  | tryFinally (body : Operation) (fin : Operation) (k : Nat → Operation)
  | tryCatch (body : Operation) (h : ErrV → Operation) (k : Nat → Operation)

/-- One entry of a frame's pending-continuation stack: enclosing
`tryFinally`/`tryCatch` scopes, markers for a currently running cleanup
block (normal return path, error path, or halt-teardown path), a running
catch handler, and cleanup blocks still owed to the halt teardown. -/
inductive ContE where
  | finE (fin : Operation) (k : Nat → Operation)
  | catchE (h : ErrV → Operation) (k : Nat → Operation)
  | handlerE (k : Nat → Operation)
  | finRet (v : Nat) (k : Nat → Operation)
  | finThrow (e : ErrV)
  | finTear
  | tearFinE (fin : Operation)

/-- Modelled from the spec: a Frame is the live execution state of one
Operation - a pointer into the computation plus the stack of pending
cleanup blocks (spec section 3 "Frame"). `torn` records that the halt
teardown has been injected; `tearErr` the latest cleanup error, which
dominates any prior settlement cause (spec section 4.1). -/
structure Frame where
  prog : Operation
  conts : List ContE
  torn : Bool
  tearErr : Option ErrV

/-- How a frame finished: returned a value, threw an uncaught user error,
or completed the halt teardown (carrying the dominating cleanup error,
if any cleanup block raised). -/
inductive FrameRes where
  | retR (v : Nat)
  | threwR (e : ErrV)
  | tornR (te : Option ErrV)

/-- Result of one pure unwinding step of a frame: keep running, or the
frame is finished. -/
inductive FrameOut where
  | go (fr : Frame)
  | stop (r : FrameRes)

/-- Run the next cleanup block owed to the halt teardown, in LIFO order;
when none remain the teardown is complete (spec section 4.2 step 4). -/
def popTear (te : Option ErrV) : List ContE → FrameOut
  | [] => .stop (.tornR te)
  | .tearFinE f :: r => .go ⟨f, .finTear :: r, true, te⟩
  | .finE _ _ :: r => popTear te r
  | .catchE _ _ :: r => popTear te r
  | .handlerE _ :: r => popTear te r
  | .finRet _ _ :: r => popTear te r
  | .finThrow _ :: r => popTear te r
  | .finTear :: r => popTear te r

/-- Unwind a thrown error through the continuation stack: the nearest
`tryCatch` handler catches it; every `tryFinally` cleanup on the way runs
first; an error thrown by a cleanup block supersedes the previous cause
(spec sections 4.1 and 7). -/
def stepFail (torn : Bool) (e : ErrV) (te : Option ErrV) : List ContE → FrameOut
  | [] => .stop (if torn then .tornR (some e) else .threwR e)
  | .finE fin _ :: r => .go ⟨fin, .finThrow e :: r, torn, te⟩
  | .catchE h k :: r => .go ⟨h e, .handlerE k :: r, torn, te⟩
  | .handlerE _ :: r => stepFail torn e te r
  | .finRet _ _ :: r => stepFail torn e te r
  | .finThrow _ :: r => stepFail torn e te r
  | .finTear :: r => popTear (some e) r
  | .tearFinE f :: r => .go ⟨f, .finThrow e :: r, torn, te⟩

/-- Process a computation that produced a value: either it is the body of
an enclosing scope (run its cleanup, then continue), or a finished cleanup
block (resume the path that triggered it). -/
def stepDone (torn : Bool) (v : Nat) (te : Option ErrV) : List ContE → FrameOut
  | [] => .stop (if torn then .tornR te else .retR v)
  | .finE fin k :: r => .go ⟨fin, .finRet v k :: r, torn, te⟩
  | .catchE _ k :: r => .go ⟨k v, r, torn, te⟩
  | .handlerE k :: r => .go ⟨k v, r, torn, te⟩
  | .finRet v0 k :: r => .go ⟨k v0, r, torn, te⟩
  | .finThrow e :: r => stepFail torn e te r
  | .finTear :: r => popTear te r
  | .tearFinE f :: r => .go ⟨f, .finTear :: r, torn, te⟩

/-- Convert the continuation stack of a frame at the moment the halt
teardown is injected: pending cleanup blocks are kept (in LIFO order) as
teardown obligations, catch scopes and forward continuations are
abandoned - a halted task runs no more forward code but does run cleanup
(spec section 5, "Cancellation"). -/
def tearConts : List ContE → List ContE
  | [] => []
  | .finE f _ :: r => .tearFinE f :: tearConts r
  | .catchE _ _ :: r => tearConts r
  | .handlerE _ :: r => tearConts r
  | .finRet _ _ :: r => tearConts r
  | .finThrow _ :: r => tearConts r
  | .finTear :: r => tearConts r
  | .tearFinE f :: r => .tearFinE f :: tearConts r

/-- Why a frame is parked: the forever-suspend; a host timer; an external
future settling on the microtask queue; awaiting a task's settlement via
`halt` or via plain await; or awaiting the next channel message of one
subscription. -/
inductive Park where
  | forever
  | timer (wake : Nat)
  | micro (r : RunRes) (k : Nat → Operation)
  | waitHalt (t : Nat)
  | waitTask (t : Nat) (k : Nat → Operation)
  | chanNext (s : Nat) (k : Option Action → Operation)

/-- Execution status of a task's root frame: ready to run, parked on an
external event, or finished (awaiting settlement bookkeeping). -/
inductive FStat where
  | ready (fr : Frame)
  | parked (fr : Frame) (p : Park)
  | fdone (r : FrameRes)

/-- Modelled from the spec: a task record - parent link, ordered children,
lifecycle state and the root frame (spec section 3 "Task"). -/
structure TaskR where
  parent : Option Nat
  children : List Nat
  state : TState
  fstat : FStat

/-- Pending work for the machine: run one instruction of a ready task, or
perform one bookkeeping step of the halt/settlement protocol of a task. -/
inductive Job where
  | runT (i : Nat)
  | checkT (i : Nat)

/-- The whole machine state: tasks (indexed by id), per-subscription
message buffers of the one channel, the virtual clock, the log of
observable events, and the LIFO stack of pending jobs (depth-first
scheduling: a resumed continuation runs to its next suspension point
before the resumer continues, as the host's synchronous trampoline does). -/
structure World where
  tasks : List TaskR
  subs : List (List Action)
  clock : Nat
  log : List Ev
  stack : List Job

def getT (w : World) (i : Nat) : Option TaskR := w.tasks[i]?

def setT (w : World) (i : Nat) (t : TaskR) : World :=
  { w with tasks := w.tasks.set i t }

/-- Modelled from the spec, halt protocol step 2: requesting cancellation
of a Running task moves it to Halting with cause Halted; halting an
already Halting or Settled task is a no-op (spec section 4.2). -/
def applyHaltS (w : World) (t : Nat) (τ : TaskR) : TState → World
  | .running => setT w t { τ with state := .halting .chalted }
  | .halting _ => w
  | .settled _ => w

def applyHaltT (w : World) (t : Nat) : Option TaskR → World
  | some τ => applyHaltS w t τ τ.state
  | none => w

def applyHalt (w : World) (t : Nat) : World :=
  applyHaltT w t (getT w t)

/-- The program with which an awaiter of task settlement resumes: the value
on Ok, a rethrow of the error on Err, and a rethrow of the halted sentinel
on Halted (spec section 4.2, `await`). -/
def resumeOf (o : Outcome) (k : Nat → Operation) : Operation :=
  match o with
  | .ok v => k v
  | .err e => .throwE e
  | .halted => .throwE .halted

/-- Whether a task is suspended awaiting the settlement of task `i`. -/
def isWaiterOn (i : Nat) (τ : TaskR) : Bool :=
  match τ.fstat with
  | .parked _ (.waitHalt t) => t == i
  | .parked _ (.waitTask t _) => t == i
  | _ => false

/-- Resume one awaiter of task `i` which has settled with outcome `o`:
a halt awaiter resumes normally (halt completes when the task has
Settled), a plain awaiter receives the value or rethrows the error. -/
def wakeWaiter (i : Nat) (o : Outcome) (τ : TaskR) : TaskR :=
  match τ.fstat with
  | .parked fr (.waitHalt t) =>
    if t == i then { τ with fstat := .ready fr } else τ
  | .parked fr (.waitTask t k) =>
    if t == i then { τ with fstat := .ready { fr with prog := resumeOf o k } } else τ
  | _ => τ

/-- Modelled from the spec, halt protocol steps 6-7: transition the task to
Settled, resolve all awaiters, and notify the parent - a child terminal
Err moves a Running parent to Halting with the child error as cause, and
supplies the first non-halt error to a parent already Halting with cause
Halted (spec sections 3 invariant 4 and 4.2). -/
def settleParentS (p : Nat) (o : Outcome) (jobs : List Job) (rest : List Job)
    (w3 : World) (π : TaskR) : TState → World
  | .running =>
    match o with
    | .err e =>
      { setT w3 p { π with state := .halting (.cerr e) } with
        stack := jobs ++ .checkT p :: rest }
    | .ok _ => { w3 with stack := jobs ++ .checkT p :: rest }
    | .halted => { w3 with stack := jobs ++ .checkT p :: rest }
  | .halting c =>
    match c, o with
    | .chalted, .err e =>
      { setT w3 p { π with state := .halting (.cerr e) } with
        stack := jobs ++ .checkT p :: rest }
    | .chalted, .ok _ => { w3 with stack := jobs ++ .checkT p :: rest }
    | .chalted, .halted => { w3 with stack := jobs ++ .checkT p :: rest }
    | .cerr _, _ => { w3 with stack := jobs ++ .checkT p :: rest }
  | .settled _ => { w3 with stack := jobs ++ rest }

def settleParentT (p : Nat) (o : Outcome) (jobs : List Job) (rest : List Job)
    (w3 : World) : Option TaskR → World
  | some π => settleParentS p o jobs rest w3 π π.state
  | none => { w3 with stack := jobs ++ rest }

def settleParent (o : Outcome) (jobs : List Job) (rest : List Job)
    (w3 : World) : Option Nat → World
  | none => { w3 with stack := jobs ++ rest }
  | some p => settleParentT p o jobs rest w3 (getT w3 p)

def settleT (i : Nat) (o : Outcome) (rest : List Job) (w : World) : Option TaskR → World
  | none => { w with stack := rest }
  | some τ =>
    settleParent o
      (((setT w i { τ with state := .settled o }).tasks.enum.filterMap
        fun (p : Nat × TaskR) => if isWaiterOn i p.2 then some (Job.runT p.1) else none)) rest
      { setT w i { τ with state := .settled o } with
        tasks := (setT w i { τ with state := .settled o }).tasks.map (wakeWaiter i o),
        log := w.log ++ [Ev.settleE i o] }
      τ.parent

def settleTask (i : Nat) (o : Outcome) (rest : List Job) (w : World) : World :=
  settleT i o rest w (getT w i)

/-- Whether a task is suspended awaiting the next message of
subscription `s`. -/
def isNexting (s : Nat) (τ : TaskR) : Bool :=
  match τ.fstat with
  | .parked _ (.chanNext t _) => t == s
  | _ => false

/-- Append a message to the buffer of subscription `s` (slow subscribers
retain messages by position, spec section 4.4). -/
def bufAppend (subs : List (List Action)) (s : Nat) (m : Action) : List (List Action) :=
  match subs[s]? with
  | some b => subs.set s (b ++ [m])
  | none => subs

/-- The index of the first task suspended awaiting the next message of
subscription `s`, if any (its pending resolver is the one a send
resolves, spec section 4.4 concurrency contract). -/
def findNexter (s : Nat) : Nat → List TaskR → Option Nat
  | _, [] => none
  | i, τ :: r => if isNexting s τ then some i else findNexter s (i + 1) r

/-- Deliver a sent message to subscription `s`: resolve the pending `next`
resolver of that subscription if one is parked, otherwise buffer the
message at the subscription cursor (spec section 4.4). -/
def deliverToF (m : Action) (w : World) (j : Nat) (τ : TaskR) : FStat → World × Option Nat
  | .parked fr (.chanNext _ kc) =>
    (setT w j { τ with fstat := .ready { fr with prog := kc (some m) } }, some j)
  | .parked fr .forever => (w, none)
  | .parked fr (.timer _) => (w, none)
  | .parked fr (.micro _ _) => (w, none)
  | .parked fr (.waitHalt _) => (w, none)
  | .parked fr (.waitTask _ _) => (w, none)
  | .ready _ => (w, none)
  | .fdone _ => (w, none)

def deliverToT (m : Action) (w : World) (j : Nat) : Option TaskR → World × Option Nat
  | some τ => deliverToF m w j τ τ.fstat
  | none => (w, none)

def deliverToN (m : Action) (s : Nat) (w : World) : Option Nat → World × Option Nat
  | some j => deliverToT m w j (getT w j)
  | none => ({ w with subs := bufAppend w.subs s m }, none)

def deliverTo (m : Action) (s : Nat) (w : World) : World × Option Nat :=
  deliverToN m s w (findNexter s 0 w.tasks)

/-- Deliver a sent message to every subscription in creation order,
collecting the tasks whose pending resolvers fired, in that order
(they resume in FIFO order, spec section 4.3 ordering guarantee). -/
def deliverAll (m : Action) : List Nat → World → World × List Nat
  | [], w => (w, [])
  | s :: ss, w =>
    match deliverTo m s w with
    | (w1, some j) => ((deliverAll m ss w1).1, j :: (deliverAll m ss w1).2)
    | (w1, none) => deliverAll m ss w1

/-- Execute one instruction of ready task `i` (spec section 4.3, the
scheduler's interpretation of `StepResult`). An explicit forever-suspend
issued while the task is Halting is ignored: control returns immediately
(spec section 4.1 edge-case policy); every other instruction behaves
normally while Halting. A resumed continuation is pushed above the
resumer, so it runs to its next suspension point first. -/
def frameOutRun (i : Nat) (τ : TaskR) (rest : List Job) (w : World) : FrameOut → World
  | .go fr2 =>
    { setT w i { τ with fstat := .ready fr2 } with stack := .runT i :: rest }
  | .stop r =>
    { setT w i { τ with fstat := .fdone r } with stack := .checkT i :: rest }

def suspendRun (i : Nat) (τ : TaskR) (fr : Frame) (k : Operation) (rest : List Job)
    (w : World) : TState → World
  | .halting _ =>
    { setT w i { τ with fstat := .ready { fr with prog := k } } with
      stack := .runT i :: rest }
  | .running =>
    { setT w i { τ with fstat := .parked { fr with prog := k } .forever } with
      stack := rest }
  | .settled _ =>
    { setT w i { τ with fstat := .parked { fr with prog := k } .forever } with
      stack := rest }

def haltAwaitS (i : Nat) (τ : TaskR) (fr : Frame) (t : Nat) (k : Operation)
    (rest : List Job) (w1 : World) : TState → World
  | .settled _ =>
    { setT w1 i { τ with fstat := .ready { fr with prog := k } } with
      stack := .runT i :: rest }
  | .running =>
    { setT w1 i { τ with fstat := .parked { fr with prog := k } (.waitHalt t) } with
      stack := .checkT t :: rest }
  | .halting _ =>
    { setT w1 i { τ with fstat := .parked { fr with prog := k } (.waitHalt t) } with
      stack := .checkT t :: rest }

def haltAwaitT (i : Nat) (τ : TaskR) (fr : Frame) (t : Nat) (k : Operation)
    (rest : List Job) (w1 : World) : Option TaskR → World
  | some σ => haltAwaitS i τ fr t k rest w1 σ.state
  | none =>
    { setT w1 i { τ with fstat := .ready { fr with prog := k } } with
      stack := .runT i :: rest }

def awaitS (i : Nat) (τ : TaskR) (fr : Frame) (t : Nat) (k : Nat → Operation)
    (rest : List Job) (w : World) : TState → World
  | .settled o =>
    { setT w i { τ with fstat := .ready { fr with prog := resumeOf o k } } with
      stack := .runT i :: rest }
  | .running =>
    { setT w i { τ with fstat := .parked fr (.waitTask t k) } with stack := rest }
  | .halting _ =>
    { setT w i { τ with fstat := .parked fr (.waitTask t k) } with stack := rest }

def awaitT (i : Nat) (τ : TaskR) (fr : Frame) (t : Nat) (k : Nat → Operation)
    (rest : List Job) (w : World) : Option TaskR → World
  | some σ => awaitS i τ fr t k rest w σ.state
  | none =>
    { setT w i { τ with fstat := .parked fr (.waitTask t k) } with stack := rest }

def nextBuf (i : Nat) (τ : TaskR) (fr : Frame) (s : Nat) (k : Option Action → Operation)
    (rest : List Job) (w : World) : Option (List Action) → World
  | some (m :: ms) =>
    { setT { w with subs := w.subs.set s ms } i
        { τ with fstat := .ready { fr with prog := k (some m) } } with
      stack := .runT i :: rest }
  | some [] =>
    { setT w i { τ with fstat := .parked fr (.chanNext s k) } with stack := rest }
  | none =>
    { setT w i { τ with fstat := .parked fr (.chanNext s k) } with stack := rest }

def execOp (i : Nat) (τ : TaskR) (fr : Frame) (rest : List Job) (w : World) :
    Operation → World
  | .ret v => frameOutRun i τ rest w (stepDone fr.torn v fr.tearErr fr.conts)
  | .throwE e => frameOutRun i τ rest w (stepFail fr.torn e fr.tearErr fr.conts)
  | .suspend k => suspendRun i τ fr k rest w τ.state
  | .sleep ms k =>
    { setT w i { τ with fstat := .parked { fr with prog := k } (.timer (w.clock + ms)) } with
      stack := rest }
  | .expect r k =>
    { setT w i { τ with fstat := .parked fr (.micro r k) } with stack := rest }
  | .spawn op k =>
    { setT { w with tasks := w.tasks ++ [⟨some i, [], .running, .ready ⟨op, [], false, none⟩⟩] } i
        { τ with children := τ.children ++ [w.tasks.length],
                 fstat := .ready { fr with prog := k w.tasks.length } } with
      stack := .runT w.tasks.length :: .runT i :: rest }
  | .halt t k =>
    { applyHalt (setT w i { τ with fstat := .ready { fr with prog := k } }) t with
      stack := .checkT t :: .runT i :: rest }
  | .haltAwait t k =>
    haltAwaitT i τ fr t k rest (applyHalt w t) (getT (applyHalt w t) t)
  | .await t k => awaitT i τ fr t k rest w (getT w t)
  | .send m k =>
    { (deliverAll m (List.range w.subs.length)
        (setT w i { τ with fstat := .ready { fr with prog := k } })).1 with
      stack := (deliverAll m (List.range w.subs.length)
        (setT w i { τ with fstat := .ready { fr with prog := k } })).2.map .runT ++
        .runT i :: rest }
  | .subscribe k =>
    { setT { w with subs := w.subs ++ [[]] } i
        { τ with fstat := .ready { fr with prog := k w.subs.length } } with
      stack := .runT i :: rest }
  | .next s k => nextBuf i τ fr s k rest w w.subs[s]?
  | .emit a k =>
    { setT { w with log := w.log ++ [Ev.emitE a] } i
        { τ with fstat := .ready { fr with prog := k } } with
      stack := .runT i :: rest }
  | .tryFinally b f k =>
    { setT w i { τ with fstat := .ready { fr with prog := b, conts := .finE f k :: fr.conts } } with
      stack := .runT i :: rest }
  | .tryCatch b h k =>
    { setT w i { τ with fstat := .ready { fr with prog := b, conts := .catchE h k :: fr.conts } } with
      stack := .runT i :: rest }

def execInstr (i : Nat) (τ : TaskR) (fr : Frame) (rest : List Job) (w : World) : World :=
  execOp i τ fr rest w fr.prog

/-- Run one instruction of the task on top of the job stack; a stale job
naming a task that is not ready is dropped. -/
def execRunF (i : Nat) (τ : TaskR) (rest : List Job) (w : World) : FStat → World
  | .ready fr => execInstr i τ fr rest w
  | .parked _ _ => { w with stack := rest }
  | .fdone _ => { w with stack := rest }

def execRunT (i : Nat) (rest : List Job) (w : World) : Option TaskR → World
  | some τ => execRunF i τ rest w τ.fstat
  | none => { w with stack := rest }

def execRun (i : Nat) (rest : List Job) (w : World) : World :=
  execRunT i rest w (getT w i)

/-- Whether the given child id is not yet Settled. -/
def unsettled (w : World) (c : Nat) : Bool :=
  match getT w c with
  | some τ =>
    match τ.state with
    | .settled _ => false
    | _ => true
  | none => false

/-- The most recently spawned child that has not Settled: descendants are
finalised in LIFO order of spawning (spec sections 4.2 step 3 and 5). -/
def lastUnsettled (w : World) (cs : List Nat) : Option Nat :=
  cs.reverse.find? (unsettled w)

/-- Modelled from the spec, halt protocol step 4: inject a synthetic
unwind at the frame's current point - forward code and catch scopes are
abandoned, pending cleanup blocks run in LIFO order, halt cancels a
pending timer before unparking (spec sections 4.2 and 4.5). -/
def injectTear (i : Nat) (τ : TaskR) (fr : Frame) (rest : List Job) (w : World) : World :=
  frameOutRun i τ rest w (popTear none (tearConts fr.conts))

/-- The outcome a finished frame settles to: a cleanup error dominates
every prior cause; otherwise a Halting task settles with its recorded
cause, and a Running task with its return value or uncaught error
(spec sections 3 invariant 3 and 4.1). -/
def outcomeOf (st : TState) (r : FrameRes) : Outcome :=
  match r with
  | .tornR (some e) => .err e
  | .tornR none =>
    match st with
    | .halting c => c.out
    | _ => .halted
  | .retR v =>
    match st with
    | .halting c => c.out
    | _ => .ok v
  | .threwR e =>
    match st with
    | .halting c => c.out
    | _ => .err e

/-- One bookkeeping step of a completing task (Halting, or whose frame
finished): first finalise descendants in LIFO order - initiating the halt
of the most recently spawned unsettled child when it is still Running,
else waiting for it - then, with every child Settled, inject the halt
teardown into a not yet torn frame, or settle a finished frame
(spec section 4.2, the halt protocol, which is re-entrant in `children`). -/
def completeInject (i : Nat) (τ : TaskR) (fr : Frame) (rest : List Job) (w : World) :
    TState → World
  | .halting _ =>
    if fr.torn then { w with stack := rest } else injectTear i τ fr rest w
  | .running => { w with stack := rest }
  | .settled _ => { w with stack := rest }

def completeOwn (i : Nat) (τ : TaskR) (rest : List Job) (w : World) : FStat → World
  | .fdone r => settleTask i (outcomeOf τ.state r) rest w
  | .ready fr => completeInject i τ fr rest w τ.state
  | .parked fr _ => completeInject i τ fr rest w τ.state

def haltChildS (c : Nat) (rest : List Job) (w : World) (σ : TaskR) : TState → World
  | .running =>
    { setT w c { σ with state := .halting .chalted } with stack := .checkT c :: rest }
  | .halting _ => { w with stack := rest }
  | .settled _ => { w with stack := rest }

def haltChildT (c : Nat) (rest : List Job) (w : World) : Option TaskR → World
  | some σ => haltChildS c rest w σ σ.state
  | none => { w with stack := rest }

def completeTask (i : Nat) (τ : TaskR) (rest : List Job) (w : World) : Option Nat → World
  | some c => haltChildT c rest w (getT w c)
  | none => completeOwn i τ rest w τ.fstat

/-- One bookkeeping step of task `i`: nothing for a Settled task; a
Running task only completes once its frame has finished; a Halting task
advances the halt protocol. -/
def execCheckR (i : Nat) (τ : TaskR) (rest : List Job) (w : World) : FStat → World
  | .fdone _ => completeTask i τ rest w (lastUnsettled w τ.children)
  | .ready _ => { w with stack := rest }
  | .parked _ _ => { w with stack := rest }

def execCheckS (i : Nat) (τ : TaskR) (rest : List Job) (w : World) : TState → World
  | .settled _ => { w with stack := rest }
  | .running => execCheckR i τ rest w τ.fstat
  | .halting _ => completeTask i τ rest w (lastUnsettled w τ.children)

def execCheckT (i : Nat) (rest : List Job) (w : World) : Option TaskR → World
  | none => { w with stack := rest }
  | some τ => execCheckS i τ rest w τ.state

def execCheck (i : Nat) (rest : List Job) (w : World) : World :=
  execCheckT i rest w (getT w i)

/-- Whether a task is parked on the microtask queue (a settled external
future whose callback has not fired yet). -/
def isMicro (τ : TaskR) : Bool :=
  match τ.fstat with
  | .parked _ (.micro _ _) => true
  | _ => false

/-- Fire the microtask callback of an externally settled future: resume
with the value, or rethrow the rejection at the suspension point
(spec section 4.5, promise-like bridge). -/
def microReady (τ : TaskR) : TaskR :=
  match τ.fstat with
  | .parked fr (.micro r k) =>
    { τ with fstat := .ready { fr with prog :=
        match r with
        | .rok v => k v
        | .rerr e => .throwE e } }
  | _ => τ

/-- The pending wake time of a task parked on a host timer, if any. -/
def timerWake (τ : TaskR) : Option Nat :=
  match τ.fstat with
  | .parked _ (.timer t) => some t
  | _ => none

/-- Unpark a task whose timer is due. -/
def timerReady (now : Nat) (τ : TaskR) : TaskR :=
  match τ.fstat with
  | .parked fr (.timer t) => if t ≤ now then { τ with fstat := .ready fr } else τ
  | _ => τ

/-- Whether a task is parked on a timer due at or before `now`. -/
def timerDue (now : Nat) (τ : TaskR) : Bool :=
  match τ.fstat with
  | .parked _ (.timer t) => t ≤ now
  | _ => false

/-- Minimum of a list of naturals, if nonempty. -/
def natMin : List Nat → Option Nat
  | [] => none
  | x :: xs =>
    match natMin xs with
    | none => some x
    | some y => some (Nat.min x y)

/-- The turn boundary: with no job pending, yield to the host - fire all
pending microtask callbacks first, else advance the virtual clock to the
earliest pending timer and fire the timers due, resuming the unparked
frames in FIFO order (spec section 4.3). A world with no pending work is
quiescent. -/
def idleTimer (w : World) : Option Nat → World
  | some t =>
    { w with
      clock := t
      tasks := w.tasks.map (timerReady t)
      stack := w.tasks.enum.filterMap
        (fun (p : Nat × TaskR) => if timerDue t p.2 then some (Job.runT p.1) else none) }
  | none => w

def idleMicro (w : World) : Bool → World
  | true =>
    { w with
      tasks := w.tasks.map microReady
      stack := w.tasks.enum.filterMap
        (fun (p : Nat × TaskR) => if isMicro p.2 then some (Job.runT p.1) else none) }
  | false => idleTimer w (natMin (w.tasks.filterMap timerWake))

def idleStep (w : World) : World :=
  idleMicro w (w.tasks.any isMicro)

/-- One step of the machine: execute the job on top of the stack, or take
the turn boundary when no job is pending. -/
def microStepJ (w : World) : List Job → World
  | [] => idleStep w
  | .runT i :: rest => execRun i rest w
  | .checkT i :: rest => execCheck i rest w

def microStep (w : World) : World :=
  microStepJ w w.stack

/-- Drive the machine for a bounded number of micro-steps. -/
def drive : Nat → World → World
  | 0, w => w
  | n + 1, w => drive n (microStep w)

/-- The root task `run` creates for an operation. -/
def rootTask (p : Operation) : TaskR :=
  ⟨none, [], .running, .ready ⟨p, [], false, none⟩⟩

/-- Modelled from the spec: `run(factory)` creates a root Task whose frame
is scheduled (spec sections 2 and 6). -/
def initWorld (p : Operation) : World :=
  ⟨[rootTask p], [], 0, [], [.runT 0]⟩

/-- An external `halt()` on the handle returned by `run`: request
cancellation of the root task and schedule its halt protocol. -/
def haltExt (w : World) : World :=
  { applyHalt w 0 with stack := .checkT 0 :: w.stack }

/-- Run an operation to quiescence. -/
def runOp (f : Nat) (p : Operation) : World :=
  drive f (initWorld p)

/-- Run an operation to quiescence, then halt it externally and run on. -/
def runThenHalt (f1 f2 : Nat) (p : Operation) : World :=
  drive f2 (haltExt (drive f1 (initWorld p)))

/-- What the external awaiter of `run` observes in a final world: the root
value, the root error, or the `halted` error for cancellation
(spec sections 6 and 7). -/
def awaitResult (w : World) : Option RunRes :=
  match getT w 0 with
  | some τ =>
    match τ.state with
    | .settled (.ok v) => some (.rok v)
    | .settled (.err e) => some (.rerr e)
    | .settled .halted => some (.rerr .halted)
    | _ => none
  | none => none

/-- The settlement state of task `i` in a world. -/
def taskState (w : World) (i : Nat) : Option TState :=
  (getT w i).map TaskR.state

/-- The observable side effects recorded, in order. -/
def emits (w : World) : List Action :=
  w.log.filterMap fun e =>
    match e with
    | .emitE a => some a
    | _ => none

/-- Holds when the first occurrence of event `a` in the log comes
strictly before some occurrence of event `b`. -/
def evBefore (a b : Ev) : List Ev → Bool
  | [] => false
  | x :: r => if x = a then r.contains b else if x = b then false else evBefore a b r

/-- Every task of the world has Settled (nothing live, nothing leaked). -/
def allSettled (w : World) : Bool :=
  w.tasks.all fun τ =>
    match τ.state with
    | .settled _ => true
    | _ => false

/-! ## The test scenarios

One operation per test of `src/unnamed/part_001` that the claims cite,
written as instruction trees (delegation to a nested generator is inlining
of its tree; array pushes are `emit` of marker actions). -/

/-- Marker: the parent finally ran to completion ("didRun"). -/
def didRun : Action := ⟨2, 1⟩

/-- Marker: inner cleanup finished ("first"). -/
def firstM : Action := ⟨2, 2⟩

/-- Marker: outer cleanup finished ("second"). -/
def secondM : Action := ⟨2, 3⟩

/-- Marker: the finally block observed the halt ("halted = true"). -/
def haltedM : Action := ⟨2, 4⟩

/-- Marker: code after the suspend in the finally block ran ("done"). -/
def doneM : Action := ⟨2, 5⟩

/-- Marker: the awaited cleanup finished. -/
def cleanupM : Action := ⟨2, 6⟩

/-- Marker: control resumed after `halt()` resolved. -/
def afterHaltM : Action := ⟨2, 7⟩

/-- Test "can throw error when child blows up": spawn a child that sleeps
5 then throws boom; suspend under a finally that throws bang. -/
def childBlowsUp : Operation :=
  .spawn (.sleep 5 (.throwE .boom)) fun _ =>
    .tryFinally (.suspend (.ret 0)) (.throwE .bang) fun _ => .ret 0

/-- Test "can delay halt if child fails": spawn a child that sleeps 5 then
throws boom; suspend under a finally that sleeps 20 then records didRun. -/
def delayHalt : Operation :=
  .spawn (.sleep 5 (.throwE .boom)) fun _ =>
    .tryFinally (.suspend (.ret 0)) (.sleep 20 (.emit didRun (.ret 0))) fun _ => .ret 0

/-- Test "cannot explicitly suspend in a finally block": suspend under a
finally that itself suspends, then records done. -/
def suspendInFinally : Operation :=
  .tryFinally (.suspend (.ret 0)) (.suspend (.emit doneM (.ret 0))) fun _ => .ret 0

/-- Test "can halt generator": suspend forever under a finally observing
the halt. -/
def haltGenerator : Operation :=
  .tryFinally (.suspend (.ret 0)) (.emit haltedM (.ret 0)) fun _ => .ret 0

/-- Test "can suspend in yielded finally block": delegate to a nested
operation that suspends under a finally sleeping 5 then recording first,
all under an outer finally recording second. -/
def yieldedFinally : Operation :=
  .tryFinally
    (.tryFinally (.suspend (.ret 0)) (.sleep 5 (.emit firstM (.ret 0))) fun _ => .ret 0)
    (.emit secondM (.ret 0)) fun _ => .ret 0

/-- Test "can perform async operations in a finally block", awaited from
inside the world: spawn a worker suspending under a finally that sleeps 10
and records the cleanup, halt it with an awaited `halt()`, and record when
the halt resolved. -/
def haltAwaitCleanup : Operation :=
  .spawn (.tryFinally (.suspend (.ret 0)) (.sleep 10 (.emit cleanupM (.ret 0))) fun _ => .ret 0)
    fun c => .haltAwait c (.emit afterHaltM (.ret 0))

/-- Test "can halt itself": sleep 3, then call the own handle's halt. -/
def haltSelf : Operation :=
  .sleep 3 (.halt 0 (.ret 0))

/-- Test "can halt itself between yield points": sleep 1, spawn a child
that halts the parent handle, then suspend. -/
def haltSelfChild : Operation :=
  .sleep 1 (.spawn (.halt 0 (.ret 0)) fun _ => .suspend (.ret 0))

/-- What the zero-argument factory passed to `run` did: produced an
Operation, or threw before producing one. -/
inductive Factory where
  | fok (p : Operation)
  | ferr (e : ErrV)

/-- Modelled from the spec: `run(factory)`; a factory exception becomes an
immediate task error - the handle rejects with that same error
(spec section 6). -/
def runFactory : Factory → World
  | .fok p => initWorld p
  | .ferr e =>
    ⟨[⟨none, [], .settled (.err e), .fdone (.threwR e)⟩], [], 0, [Ev.settleE 0 (.err e)], []⟩

/-- Test "can recover from errors in promise": 12 from a future, a
rejected future caught (8 from the catch block), then 55; returns 75. -/
def recoverPromise : Operation :=
  .expect (.rok 12) fun one =>
    .tryCatch (.expect (.rerr .boom) fun _ => .ret 9)
      (fun _ => .expect (.rok 8) fun t => .ret t)
      fun two => .expect (.rok 55) fun three => .ret (one + two + three)

/-- Test "can recover from errors in operation": as above, with the error
thrown by a delegated operation after a suspension. -/
def recoverOperation : Operation :=
  .expect (.rok 12) fun one =>
    .tryCatch (.expect (.rok 0) fun _ => .throwE .boom)
      (fun _ => .expect (.rok 8) fun t => .ret t)
      fun two => .expect (.rok 55) fun three => .ret (one + two + three)

/-- The test helper `take(subscription, pattern)`: pull messages from the
subscription until one matches the pattern type, with unrolling fuel. -/
def takeOp (s : Nat) (pat : Nat) (k : Option Action → Operation) : Nat → Operation
  | 0 => .ret 0
  | n + 1 => .next s fun r =>
      match r with
      | none => k none
      | some a => if a.type = pat then k (some a) else takeOp s pat k n

/-- The `takeEvery` worker loop: take the next "test" message, spawn the
handler (which records the message), repeat. -/
def takeEveryLoop (s : Nat) : Nat → Operation
  | 0 => .suspend (.ret 0)
  | n + 1 => takeOp s 0 (fun r =>
      match r with
      | none => .ret 0
      | some a => .spawn (.emit a (.ret 0)) fun _ => takeEveryLoop s n) 8

/-- The `takeEvery` task body: subscribe, then loop. -/
def takeEveryBody : Operation :=
  .subscribe fun s => takeEveryLoop s 8

/-- The control task of "should take every": start `takeEvery`, wait for
CANCEL on the main subscription (subscription 0), then halt the worker. -/
def controlBody : Operation :=
  .spawn takeEveryBody fun tsk =>
    takeOp 0 1 (fun _ => .haltAwait tsk (.ret 0)) 12

/-- Test "should take every": subscribe, spawn the control task, send
test 1..4, CANCEL, then two more test messages, and await the control
task. -/
def takeEveryMain : Operation :=
  .subscribe fun _ =>
    .spawn controlBody fun ctl =>
      .send ⟨0, 1⟩ (.send ⟨0, 2⟩ (.send ⟨0, 3⟩ (.send ⟨0, 4⟩
        (.send ⟨1, 0⟩ (.send ⟨0, 1⟩ (.send ⟨0, 2⟩ (.await ctl fun _ => .ret 0)))))))

/-! ## Claim theorems: concrete scenarios -/

/-- C1: for a task whose spawned child throws an error while the parent's
own cleanup block also throws, the cleanup error replaces the child's
error as the settlement cause: the child throws boom, the parent finally
throws bang, and the external awaiter of run rejects with bang - not boom
and not the halted marker. -/
theorem claim1_cleanup_error_replaces_child_error :
    awaitResult (runOp 200 childBlowsUp) = some (.rerr .bang) := by decide

/-- C2: when a spawned child throws while the parent is suspended, the
parent is cancelled and settles with the child's error boom, but only
after the parent's cleanup block - including the suspending sleep(20)
inside it - has run to completion: the didRun marker at the end of the
cleanup is logged strictly before the parent's settlement, and the
external awaiter rejects with boom. -/
theorem claim2_child_error_after_parent_cleanup :
    awaitResult (runOp 200 delayHalt) = some (.rerr .boom) ∧
    evBefore (.emitE didRun) (.settleE 0 (.err .boom)) (runOp 200 delayHalt).log = true := by
  decide

/-- C4: a task whose operation suspends forever, when halted externally,
settles as halted - the external awaiter rejects with the halted error -
and the operation's finally block is observed to run before settlement. -/
theorem claim4_external_halt_runs_finally :
    awaitResult (runThenHalt 50 200 haltGenerator) = some (.rerr .halted) ∧
    evBefore (.emitE haltedM) (.settleE 0 .halted) (runThenHalt 50 200 haltGenerator).log = true := by
  decide

/-- C7: a task that halts itself - from its own body, or from a spawned
child while it is still running - settles cleanly: the external awaiter
rejects with the halted error, and every task of the world has Settled
(no resources leaked). -/
theorem claim7_halt_self_settles_halted :
    awaitResult (runOp 200 haltSelf) = some (.rerr .halted) ∧
    allSettled (runOp 200 haltSelf) = true ∧
    awaitResult (runOp 200 haltSelfChild) = some (.rerr .halted) ∧
    allSettled (runOp 200 haltSelfChild) = true := by
  decide

/-- C8: for every factory passed to run, if the factory itself throws
before producing an Operation, the exception becomes an immediate task
error: the handle returned by run rejects with that same error. -/
theorem claim8_factory_exception_rejects_handle (e : ErrV) :
    awaitResult (runFactory (.ferr e)) = some (.rerr e) := rfl

/-- C9: an error thrown by a sub-operation - a rejected external future,
or a failing delegated operation - inside a try/catch is caught at the
suspension point that produced it and does not propagate to the task's
settlement: both recovery scenarios keep computing across further
suspending operations from the catch block and return 75 normally. -/
theorem claim9_errors_caught_at_suspension_point :
    awaitResult (runOp 200 recoverPromise) = some (.rok 75) ∧
    awaitResult (runOp 200 recoverOperation) = some (.rok 75) := by
  decide

/-- C10: with a takeEvery handler subscribed before any sends, every
message sent before CANCEL is delivered to the handler in send order, and
after the handler task is halted in response to CANCEL the two subsequent
sends are not observed: the accumulated array is exactly
test 1, test 2, test 3, test 4, and the root run returns normally. -/
theorem claim10_take_every :
    emits (runOp 600 takeEveryMain) = [⟨0, 1⟩, ⟨0, 2⟩, ⟨0, 3⟩, ⟨0, 4⟩] ∧
    awaitResult (runOp 600 takeEveryMain) = some (.rok 0) := by
  decide

/-! ## Access lemmas for the task store -/

theorem getT_setT (w : World) (m i : Nat) (x : TaskR) :
    getT (setT w m x) i =
      if m = i then (if m < w.tasks.length then some x else none) else getT w i := by
  simp [getT, setT, List.getElem?_set]

theorem getT_lt {w : World} {i : Nat} {τ : TaskR} (h : getT w i = some τ) :
    i < w.tasks.length := by
  by_contra hlt
  rw [getT, List.getElem?_eq_none (Nat.le_of_not_lt hlt)] at h
  exact Option.noConfusion h

/-! ## Claim theorems: universal properties with their scenarios -/

/-- C3: for every task in the Halting state, an explicit forever-suspend
instruction is ignored - control returns immediately to the code after it
and the task stays scheduled; in the scenario of the test "cannot
explicitly suspend in a finally block", the code after the suspend in the
finally block runs (the done marker is logged before settlement) and the
halt completes with the halted outcome instead of deadlocking. -/
theorem claim3_suspend_ignored_while_halting :
    (∀ (w : World) (rest : List Job) (i : Nat) (τ : TaskR) (fr : Frame)
      (k : Operation) (c : Cause),
      w.stack = .runT i :: rest →
      getT w i = some τ →
      τ.state = .halting c →
      τ.fstat = .ready fr →
      fr.prog = .suspend k →
      getT (microStep w) i = some { τ with fstat := .ready { fr with prog := k } } ∧
      (microStep w).stack = .runT i :: rest) ∧
    awaitResult (runThenHalt 50 200 suspendInFinally) = some (.rerr .halted) ∧
    evBefore (.emitE doneM) (.settleE 0 .halted)
      (runThenHalt 50 200 suspendInFinally).log = true := by
  refine ⟨?_, by decide, by decide⟩
  intro w rest i τ fr k c hs ht hst hf hp
  have hlen := getT_lt ht
  constructor
  · simp only [microStep, hs, microStepJ, execRun, ht, execRunT, hf, execRunF,
      execInstr, hp, execOp, hst, suspendRun]
    exact List.getElem?_set_self hlen
  · simp [microStep, hs, microStepJ, execRun, ht, execRunT, hf, execRunF,
      execInstr, hp, execOp, hst, suspendRun]

/-- C5: while a task is Halting, a non-suspend instruction such as a
timer-backed sleep behaves normally - it parks the frame on the host
timer exactly as in the Running state; and in the scenario of the test
"can suspend in yielded finally block", the nested operation's cleanup
runs to completion before the outer cleanup (the markers are logged in
LIFO order first, second) and the halt settles as halted. -/
theorem claim5_sleep_normal_while_halting :
    (∀ (w : World) (rest : List Job) (i : Nat) (τ : TaskR) (fr : Frame)
      (ms : Nat) (k : Operation) (c : Cause),
      w.stack = .runT i :: rest →
      getT w i = some τ →
      τ.state = .halting c →
      τ.fstat = .ready fr →
      fr.prog = .sleep ms k →
      getT (microStep w) i =
        some { τ with fstat := .parked { fr with prog := k } (.timer (w.clock + ms)) } ∧
      (microStep w).stack = rest) ∧
    emits (runThenHalt 50 200 yieldedFinally) = [firstM, secondM] ∧
    awaitResult (runThenHalt 50 200 yieldedFinally) = some (.rerr .halted) := by
  refine ⟨?_, by decide, by decide⟩
  intro w rest i τ fr ms k c hs ht hst hf hp
  have hlen := getT_lt ht
  constructor
  · simp only [microStep, hs, microStepJ, execRun, ht, execRunT, hf, execRunF,
      execInstr, hp, execOp]
    exact List.getElem?_set_self hlen
  · simp [microStep, hs, microStepJ, execRun, ht, execRunT, hf, execRunF,
      execInstr, hp, execOp]

/-- A concrete world for the C3 witness: one task of the
"cannot explicitly suspend in a finally block" shape, already Halting with
the teardown injected, about to execute the explicit suspend of its
finally block. -/
def w3ex : World :=
  ⟨[⟨none, [], .halting .chalted,
     .ready ⟨.suspend (.emit doneM (.ret 0)), [.finTear], true, none⟩⟩], [], 0, [], [.runT 0]⟩

/-- Witness for C3: on the concrete Halting task of `w3ex`, the suspend is
skipped - the frame advances to the emit and stays scheduled. -/
theorem claim3_witness :
    getT (microStep w3ex) 0 =
      some ⟨none, [], .halting .chalted,
        .ready ⟨.emit doneM (.ret 0), [.finTear], true, none⟩⟩ ∧
    (microStep w3ex).stack = [Job.runT 0] :=
  claim3_suspend_ignored_while_halting.1 w3ex [] 0
    ⟨none, [], .halting .chalted,
      .ready ⟨.suspend (.emit doneM (.ret 0)), [.finTear], true, none⟩⟩
    ⟨.suspend (.emit doneM (.ret 0)), [.finTear], true, none⟩
    (.emit doneM (.ret 0)) .chalted rfl rfl rfl rfl rfl

/-- A concrete world for the C5 witness: one Halting task whose cleanup is
about to execute a sleep of 5 milliseconds. -/
def w5ex : World :=
  ⟨[⟨none, [], .halting .chalted,
     .ready ⟨.sleep 5 (.emit firstM (.ret 0)), [.finTear], true, none⟩⟩], [], 0, [], [.runT 0]⟩

/-- Witness for C5: on the concrete Halting task of `w5ex`, the sleep
parks the frame on the host timer due at 5, as in the Running state. -/
theorem claim5_witness :
    getT (microStep w5ex) 0 =
      some ⟨none, [], .halting .chalted,
        .parked ⟨.emit firstM (.ret 0), [.finTear], true, none⟩ (.timer 5)⟩ ∧
    (microStep w5ex).stack = [] :=
  claim5_sleep_normal_while_halting.1 w5ex [] 0
    ⟨none, [], .halting .chalted,
      .ready ⟨.sleep 5 (.emit firstM (.ret 0)), [.finTear], true, none⟩⟩
    ⟨.sleep 5 (.emit firstM (.ret 0)), [.finTear], true, none⟩
    5 (.emit firstM (.ret 0)) .chalted rfl rfl rfl rfl rfl

/-! ## Support lemmas for the halt-resolution safety theorem -/

theorem getT_restack (w : World) (s : List Job) (i : Nat) :
    getT { w with stack := s } i = getT w i := rfl

theorem getT_other {w : World} {m i : Nat} (x : TaskR) (hne : m ≠ i) :
    getT (setT w m x) i = getT w i := by
  rw [getT_setT, if_neg hne]

theorem getT_setT_self {w : World} {i : Nat} {τ : TaskR} (x : TaskR)
    (h : getT w i = some τ) : getT (setT w i x) i = some x := by
  rw [getT_setT, if_pos rfl, if_pos (getT_lt h)]

theorem getT_append (w : World) (x : TaskR) (i : Nat) (h : i < w.tasks.length) :
    getT { w with tasks := w.tasks ++ [x] } i = getT w i :=
  List.getElem?_append_left h

theorem popTear_go_torn {te : Option ErrV} {cs : List ContE} {fr : Frame}
    (h : popTear te cs = .go fr) : fr.torn = true := by
  induction cs with
  | nil => exact absurd h (by rw [popTear]; exact fun hx => FrameOut.noConfusion hx)
  | cons c r ih =>
    cases c with
    | tearFinE f =>
      rw [popTear] at h
      cases h
      rfl
    | finE f k => rw [popTear] at h; exact ih h
    | catchE f k => rw [popTear] at h; exact ih h
    | handlerE k => rw [popTear] at h; exact ih h
    | finRet v k => rw [popTear] at h; exact ih h
    | finThrow e => rw [popTear] at h; exact ih h
    | finTear => rw [popTear] at h; exact ih h

theorem applyHalt_fstat (w : World) (t i : Nat) :
    (getT (applyHalt w t) i).map TaskR.fstat = (getT w i).map TaskR.fstat := by
  rw [applyHalt]
  cases hg : getT w t with
  | none => rfl
  | some σ =>
    rw [applyHaltT]
    cases hs : σ.state with
    | running =>
      rw [applyHaltS, getT_setT]
      by_cases he : t = i
      · subst he
        rw [if_pos rfl, if_pos (getT_lt hg), hg]
        rfl
      · rw [if_neg he]
    | halting c => rfl
    | settled o => rfl

theorem deliverTo_parked_waitHalt {m : Action} {s : Nat} {w : World} {i : Nat}
    {τ : TaskR} {fr : Frame} {j : Nat}
    (h1 : getT w i = some τ) (h2 : τ.fstat = .parked fr (.waitHalt j)) :
    getT (deliverTo m s w).1 i = some τ := by
  rw [deliverTo]
  cases hh : findNexter s 0 w.tasks with
  | none => exact h1
  | some jj =>
    rw [deliverToN]
    cases hg : getT w jj with
    | none => exact h1
    | some σ =>
      rw [deliverToT]
      cases hf : σ.fstat with
      | ready fr2 => exact h1
      | fdone r => exact h1
      | parked fr2 pk =>
        cases pk with
        | chanNext ss kc =>
          by_cases he : jj = i
          · subst he
            rw [h1] at hg
            cases hg
            rw [h2] at hf
            simp at hf
          · rw [deliverToF]
            exact (getT_other _ he).trans h1
        | forever => exact h1
        | timer t0 => exact h1
        | micro r k => exact h1
        | waitHalt t0 => exact h1
        | waitTask t0 k => exact h1

theorem deliverAll_parked_waitHalt {m : Action} {ss : List Nat} {w : World} {i : Nat}
    {τ : TaskR} {fr : Frame} {j : Nat}
    (h1 : getT w i = some τ) (h2 : τ.fstat = .parked fr (.waitHalt j)) :
    getT (deliverAll m ss w).1 i = some τ := by
  induction ss generalizing w with
  | nil => exact h1
  | cons s rest ih =>
    rw [deliverAll]
    have hpre : getT (deliverTo m s w).1 i = some τ := deliverTo_parked_waitHalt h1 h2
    cases hd : deliverTo m s w with
    | mk w1 oj =>
      rw [hd] at hpre
      cases oj with
      | some jj => exact ih hpre
      | none => exact ih hpre

theorem wakeWaiter_state (i : Nat) (o : Outcome) (σ : TaskR) :
    (wakeWaiter i o σ).state = σ.state := by
  obtain ⟨pa, ch, st, fs⟩ := σ
  cases fs with
  | ready fr => rfl
  | fdone r => rfl
  | parked fr pk =>
    cases pk with
    | waitHalt t =>
      by_cases he : (t == i) = true
      · simp [wakeWaiter, he]
      · simp [wakeWaiter, he]
    | waitTask t k =>
      by_cases he : (t == i) = true
      · simp [wakeWaiter, he]
      · simp [wakeWaiter, he]
    | forever => rfl
    | timer t0 => rfl
    | micro r k => rfl
    | chanNext s k => rfl

theorem microReady_parked_waitHalt {τ : TaskR} {fr : Frame} {j : Nat}
    (h : τ.fstat = .parked fr (.waitHalt j)) : microReady τ = τ := by
  rw [microReady, h]

theorem timerReady_parked_waitHalt (now : Nat) {τ : TaskR} {fr : Frame} {j : Nat}
    (h : τ.fstat = .parked fr (.waitHalt j)) : timerReady now τ = τ := by
  rw [timerReady, h]

theorem parked_not_ready {τ : TaskR} {fr fr0 : Frame} {p : Park} {C : Prop}
    (h2 : τ.fstat = .parked fr0 p) (h4 : τ.fstat = .ready fr) : C :=
  FStat.noConfusion (h2.symm.trans h4)

theorem unchanged_contra {τ τ2 : TaskR} {fr : Frame} {p : Park} {C : Prop}
    (hEq : some τ = some τ2) (h2 : τ.fstat = .parked fr p)
    (h4 : τ2.fstat = .ready fr) : C := by
  cases hEq
  exact parked_not_ready h2 h4

theorem state_update_contra {τ τ2 : TaskR} {st : TState} {fr fr0 : Frame} {p : Park} {C : Prop}
    (hEq : some ({ τ with state := st } : TaskR) = some τ2)
    (h2 : τ.fstat = .parked fr0 p) (h4 : τ2.fstat = .ready fr) : C := by
  cases hEq
  exact parked_not_ready h2 h4

theorem applyHalt_map_contra {wa : World} {t i : Nat} {τ τ2 : TaskR} {fr : Frame}
    {p : Park} {C : Prop}
    (h1 : getT wa i = some τ) (h2 : τ.fstat = .parked fr p)
    (h3 : getT (applyHalt wa t) i = some τ2) (h4 : τ2.fstat = .ready fr) : C := by
  have hm := applyHalt_fstat wa t i
  rw [h1, h3] at hm
  simp only [Option.map_some'] at hm
  rw [h4, h2] at hm
  exact absurd (Option.some.inj hm) (by simp)

theorem applyHalt_parked {w : World} {t i : Nat} {τ : TaskR} {fr : Frame} {p : Park}
    (h1 : getT w i = some τ) (h2 : τ.fstat = .parked fr p) :
    ∃ τ4, getT (applyHalt w t) i = some τ4 ∧ τ4.fstat = .parked fr p := by
  have hm := applyHalt_fstat w t i
  rw [h1] at hm
  cases hg : getT (applyHalt w t) i with
  | none => rw [hg] at hm; exact absurd hm (by simp)
  | some τ4 =>
    rw [hg] at hm
    simp only [Option.map_some'] at hm
    exact ⟨τ4, rfl, (Option.some.inj hm).trans h2⟩

theorem getT_wake (w1 : World) (lg : List Ev) (i2 i : Nat) (o : Outcome) :
    getT { w1 with tasks := w1.tasks.map (wakeWaiter i2 o), log := lg } i =
      (getT w1 i).map (wakeWaiter i2 o) := by
  simp only [getT, List.getElem?_map]

theorem wakeWaiter_waitHalt {τ : TaskR} {fr : Frame} {j : Nat} (i2 : Nat) (o : Outcome)
    (h2 : τ.fstat = .parked fr (.waitHalt j)) :
    wakeWaiter i2 o τ = if j == i2 then { τ with fstat := .ready fr } else τ := by
  rw [wakeWaiter, h2]

theorem settleParent_parked_contra {o : Outcome} {jobs rest : List Job} {w3 : World}
    {op : Option Nat} {i : Nat} {τ4 τ2 : TaskR} {fr : Frame} {p : Park} {C : Prop}
    (h1 : getT w3 i = some τ4) (h2 : τ4.fstat = .parked fr p)
    (h3 : getT (settleParent o jobs rest w3 op) i = some τ2)
    (h4 : τ2.fstat = .ready fr) : C := by
  cases op with
  | none =>
    rw [settleParent] at h3
    exact unchanged_contra (h1.symm.trans h3) h2 h4
  | some pp =>
    rw [settleParent] at h3
    cases hgp : getT w3 pp with
    | none =>
      rw [hgp, settleParentT] at h3
      exact unchanged_contra (h1.symm.trans h3) h2 h4
    | some π =>
      rw [hgp, settleParentT] at h3
      cases hsp : π.state with
      | running =>
        rw [hsp] at h3
        cases o with
        | err e =>
          rw [settleParentS, getT_restack] at h3
          by_cases hc : pp = i
          · subst hc
            rw [h1] at hgp
            cases hgp
            rw [getT_setT_self _ h1] at h3
            exact state_update_contra h3 h2 h4
          · rw [getT_other _ hc] at h3
            exact unchanged_contra (h1.symm.trans h3) h2 h4
        | ok v =>
          rw [settleParentS] at h3
          exact unchanged_contra (h1.symm.trans h3) h2 h4
        | halted =>
          rw [settleParentS] at h3
          exact unchanged_contra (h1.symm.trans h3) h2 h4
      | halting c =>
        rw [hsp] at h3
        cases c with
        | chalted =>
          cases o with
          | err e =>
            rw [settleParentS, getT_restack] at h3
            by_cases hc : pp = i
            · subst hc
              rw [h1] at hgp
              cases hgp
              rw [getT_setT_self _ h1] at h3
              exact state_update_contra h3 h2 h4
            · rw [getT_other _ hc] at h3
              exact unchanged_contra (h1.symm.trans h3) h2 h4
          | ok v =>
            rw [settleParentS] at h3
            exact unchanged_contra (h1.symm.trans h3) h2 h4
          | halted =>
            rw [settleParentS] at h3
            exact unchanged_contra (h1.symm.trans h3) h2 h4
        | cerr e2 =>
          cases o with
          | err e =>
            rw [settleParentS] at h3
            exact unchanged_contra (h1.symm.trans h3) h2 h4
          | ok v =>
            rw [settleParentS] at h3
            exact unchanged_contra (h1.symm.trans h3) h2 h4
          | halted =>
            rw [settleParentS] at h3
            exact unchanged_contra (h1.symm.trans h3) h2 h4
      | settled o2 =>
        rw [hsp, settleParentS] at h3
        exact unchanged_contra (h1.symm.trans h3) h2 h4

theorem settleParent_settled_preserved {o : Outcome} {jobs rest : List Job} {w3 : World}
    {op : Option Nat} {j : Nat} {σ : TaskR} {oo : Outcome}
    (hj : getT w3 j = some σ) (hσ : σ.state = .settled oo) :
    ∃ σ2 oo2, getT (settleParent o jobs rest w3 op) j = some σ2 ∧
      σ2.state = .settled oo2 := by
  cases op with
  | none => exact ⟨σ, oo, hj, hσ⟩
  | some pp =>
    rw [settleParent]
    cases hgp : getT w3 pp with
    | none => exact ⟨σ, oo, hj, hσ⟩
    | some π =>
      rw [settleParentT]
      cases hsp : π.state with
      | running =>
        cases o with
        | err e =>
          have hc : pp ≠ j := by
            intro he
            subst he
            rw [hj] at hgp
            cases hgp
            rw [hσ] at hsp
            exact TState.noConfusion hsp
          rw [settleParentS, getT_restack, getT_other _ hc]
          exact ⟨σ, oo, hj, hσ⟩
        | ok v =>
          rw [settleParentS]
          exact ⟨σ, oo, hj, hσ⟩
        | halted =>
          rw [settleParentS]
          exact ⟨σ, oo, hj, hσ⟩
      | halting c =>
        cases c with
        | chalted =>
          cases o with
          | err e =>
            have hc : pp ≠ j := by
              intro he
              subst he
              rw [hj] at hgp
              cases hgp
              rw [hσ] at hsp
              exact TState.noConfusion hsp
            rw [settleParentS, getT_restack, getT_other _ hc]
            exact ⟨σ, oo, hj, hσ⟩
          | ok v =>
            rw [settleParentS]
            exact ⟨σ, oo, hj, hσ⟩
          | halted =>
            rw [settleParentS]
            exact ⟨σ, oo, hj, hσ⟩
        | cerr e2 =>
          cases o with
          | err e =>
            rw [settleParentS]
            exact ⟨σ, oo, hj, hσ⟩
          | ok v =>
            rw [settleParentS]
            exact ⟨σ, oo, hj, hσ⟩
          | halted =>
            rw [settleParentS]
            exact ⟨σ, oo, hj, hσ⟩
      | settled o2 =>
        rw [settleParentS]
        exact ⟨σ, oo, hj, hσ⟩

theorem settleTask_safety (rest : List Job) (w : World) (i2 i j : Nat) (o : Outcome)
    (τ3 τ τ2 : TaskR) (fr : Frame) (r3 : FrameRes)
    (hg2 : getT w i2 = some τ3) (hf3 : τ3.fstat = .fdone r3)
    (h1 : getT w i = some τ) (h2 : τ.fstat = .parked fr (.waitHalt j))
    (h3 : getT (settleTask i2 o rest w) i = some τ2)
    (h4 : τ2.fstat = .ready fr) :
    ∃ σ oo, getT (settleTask i2 o rest w) j = some σ ∧ σ.state = .settled oo := by
  have hne : i2 ≠ i := by
    intro he
    subst he
    rw [h1] at hg2
    cases hg2
    exact FStat.noConfusion (h2.symm.trans hf3)
  rw [settleTask, hg2, settleT] at h3 ⊢
  by_cases hji : j = i2
  · subst hji
    have hj2 : getT { setT w j { τ3 with state := .settled o } with
        tasks := (setT w j { τ3 with state := .settled o }).tasks.map (wakeWaiter j o),
        log := w.log ++ [Ev.settleE j o] } j =
        some (wakeWaiter j o { τ3 with state := .settled o }) := by
      rw [getT_wake, getT_setT_self _ hg2, Option.map_some']
    exact settleParent_settled_preserved hj2 (wakeWaiter_state j o _)
  · have hτ4 : wakeWaiter i2 o τ = τ := by
      rw [wakeWaiter_waitHalt i2 o h2]
      simp [hji]
    have hW3i : getT { setT w i2 { τ3 with state := .settled o } with
        tasks := (setT w i2 { τ3 with state := .settled o }).tasks.map (wakeWaiter i2 o),
        log := w.log ++ [Ev.settleE i2 o] } i = some τ := by
      rw [getT_wake, getT_other _ hne, h1, Option.map_some', hτ4]
    exact settleParent_parked_contra hW3i h2 h3 h4

theorem completeTask_safety (rest : List Job) (w : World) (i2 i j : Nat)
    (τ3 τ τ2 : TaskR) (fr : Frame)
    (hg2 : getT w i2 = some τ3)
    (h1 : getT w i = some τ) (h2 : τ.fstat = .parked fr (.waitHalt j))
    (h3 : getT (completeTask i2 τ3 rest w (lastUnsettled w τ3.children)) i = some τ2)
    (h4 : τ2.fstat = .ready fr) :
    ∃ σ o, getT (completeTask i2 τ3 rest w (lastUnsettled w τ3.children)) j = some σ ∧
      σ.state = .settled o := by
  cases hlu : lastUnsettled w τ3.children with
  | some c =>
    rw [hlu] at h3
    rw [completeTask] at h3 ⊢
    cases hg3 : getT w c with
    | none =>
      rw [hg3, haltChildT] at h3
      exact unchanged_contra (h1.symm.trans h3) h2 h4
    | some σ3 =>
      rw [hg3, haltChildT] at h3
      cases hs3 : σ3.state with
      | running =>
        rw [hs3, haltChildS, getT_restack] at h3
        by_cases hc : c = i
        · subst hc
          rw [h1] at hg3
          cases hg3
          rw [getT_setT_self _ h1] at h3
          exact state_update_contra h3 h2 h4
        · rw [getT_other _ hc] at h3
          exact unchanged_contra (h1.symm.trans h3) h2 h4
      | halting c4 =>
        rw [hs3, haltChildS] at h3
        exact unchanged_contra (h1.symm.trans h3) h2 h4
      | settled o4 =>
        rw [hs3, haltChildS] at h3
        exact unchanged_contra (h1.symm.trans h3) h2 h4
  | none =>
    rw [hlu] at h3
    rw [completeTask] at h3 ⊢
    cases hf3 : τ3.fstat with
    | fdone r3 =>
      rw [hf3] at h3
      rw [completeOwn] at h3 ⊢
      exact settleTask_safety rest w i2 i j (outcomeOf τ3.state r3) τ3 τ τ2 fr r3
        hg2 hf3 h1 h2 h3 h4
    | ready fr3 =>
      rw [hf3, completeOwn] at h3
      have hne : i2 ≠ i := by
        intro he
        subst he
        rw [h1] at hg2
        cases hg2
        exact parked_not_ready h2 hf3
      cases hst3 : τ3.state with
      | running =>
        rw [hst3, completeInject] at h3
        exact unchanged_contra (h1.symm.trans h3) h2 h4
      | settled o3 =>
        rw [hst3, completeInject] at h3
        exact unchanged_contra (h1.symm.trans h3) h2 h4
      | halting c3 =>
        rw [hst3, completeInject] at h3
        by_cases htorn : fr3.torn = true
        · rw [if_pos htorn] at h3
          exact unchanged_contra (h1.symm.trans h3) h2 h4
        · rw [if_neg htorn, injectTear] at h3
          cases hpt : popTear none (tearConts fr3.conts) with
          | go fr5 =>
            rw [hpt, frameOutRun, getT_restack, getT_other _ hne] at h3
            exact unchanged_contra (h1.symm.trans h3) h2 h4
          | stop r5 =>
            rw [hpt, frameOutRun, getT_restack, getT_other _ hne] at h3
            exact unchanged_contra (h1.symm.trans h3) h2 h4
    | parked fr3 pk3 =>
      rw [hf3, completeOwn] at h3
      cases hst3 : τ3.state with
      | running =>
        rw [hst3, completeInject] at h3
        exact unchanged_contra (h1.symm.trans h3) h2 h4
      | settled o3 =>
        rw [hst3, completeInject] at h3
        exact unchanged_contra (h1.symm.trans h3) h2 h4
      | halting c3 =>
        rw [hst3, completeInject] at h3
        by_cases htorn : fr3.torn = true
        · rw [if_pos htorn] at h3
          exact unchanged_contra (h1.symm.trans h3) h2 h4
        · rw [if_neg htorn, injectTear] at h3
          cases hpt : popTear none (tearConts fr3.conts) with
          | go fr5 =>
            rw [hpt, frameOutRun, getT_restack] at h3
            by_cases hc : i2 = i
            · subst hc
              rw [h1] at hg2
              cases hg2
              have hinj : FStat.parked fr (Park.waitHalt j) = FStat.parked fr3 pk3 :=
                h2.symm.trans hf3
              cases hinj
              rw [getT_setT_self _ h1] at h3
              cases h3
              have h45 : FStat.ready fr5 = FStat.ready fr := h4
              cases h45
              exact absurd (popTear_go_torn hpt) htorn
            · rw [getT_other _ hc] at h3
              exact unchanged_contra (h1.symm.trans h3) h2 h4
          | stop r5 =>
            rw [hpt, frameOutRun, getT_restack] at h3
            by_cases hc : i2 = i
            · subst hc
              rw [h1] at hg2
              cases hg2
              rw [getT_setT_self _ h1] at h3
              cases h3
              exact absurd h4 (by simp)
            · rw [getT_other _ hc] at h3
              exact unchanged_contra (h1.symm.trans h3) h2 h4

theorem halt_waiter_safety (w : World) (i j : Nat) (τ τ2 : TaskR) (fr : Frame)
    (h1 : getT w i = some τ)
    (h2 : τ.fstat = .parked fr (.waitHalt j))
    (h3 : getT (microStep w) i = some τ2)
    (h4 : τ2.fstat = .ready fr) :
    ∃ σ o, getT (microStep w) j = some σ ∧ σ.state = .settled o := by
  rw [microStep] at h3 ⊢
  cases hs : w.stack with
  | nil =>
    rw [hs] at h3
    rw [microStepJ, idleStep] at h3
    cases hm : w.tasks.any isMicro with
    | true =>
      rw [hm, idleMicro] at h3
      simp only [getT, List.getElem?_map] at h3
      rw [show w.tasks[i]? = some τ from h1, Option.map_some',
        microReady_parked_waitHalt h2] at h3
      exact unchanged_contra h3 h2 h4
    | false =>
      rw [hm, idleMicro] at h3
      cases hn : natMin (w.tasks.filterMap timerWake) with
      | none =>
        rw [hn, idleTimer] at h3
        exact unchanged_contra (h1.symm.trans h3) h2 h4
      | some t =>
        rw [hn, idleTimer] at h3
        simp only [getT, List.getElem?_map] at h3
        rw [show w.tasks[i]? = some τ from h1, Option.map_some',
          timerReady_parked_waitHalt t h2] at h3
        exact unchanged_contra h3 h2 h4
  | cons job rest =>
    cases job with
    | runT i2 =>
      rw [hs] at h3
      rw [microStepJ, execRun] at h3
      cases hg2 : getT w i2 with
      | none =>
        rw [hg2, execRunT] at h3
        exact unchanged_contra (h1.symm.trans h3) h2 h4
      | some τ3 =>
        rw [hg2, execRunT] at h3
        cases hf3 : τ3.fstat with
        | parked fr3 pk3 =>
          rw [hf3, execRunF] at h3
          exact unchanged_contra (h1.symm.trans h3) h2 h4
        | fdone r3 =>
          rw [hf3, execRunF] at h3
          exact unchanged_contra (h1.symm.trans h3) h2 h4
        | ready fr3 =>
          rw [hf3, execRunF, execInstr] at h3
          have hne : i2 ≠ i := by
            intro he
            subst he
            rw [h1] at hg2
            cases hg2
            exact parked_not_ready h2 hf3
          cases hp3 : fr3.prog with
          | ret v =>
            rw [hp3, execOp] at h3
            cases hsd : stepDone fr3.torn v fr3.tearErr fr3.conts with
            | go fr5 =>
              rw [hsd, frameOutRun, getT_restack, getT_other _ hne] at h3
              exact unchanged_contra (h1.symm.trans h3) h2 h4
            | stop r5 =>
              rw [hsd, frameOutRun, getT_restack, getT_other _ hne] at h3
              exact unchanged_contra (h1.symm.trans h3) h2 h4
          | throwE e =>
            rw [hp3, execOp] at h3
            cases hsd : stepFail fr3.torn e fr3.tearErr fr3.conts with
            | go fr5 =>
              rw [hsd, frameOutRun, getT_restack, getT_other _ hne] at h3
              exact unchanged_contra (h1.symm.trans h3) h2 h4
            | stop r5 =>
              rw [hsd, frameOutRun, getT_restack, getT_other _ hne] at h3
              exact unchanged_contra (h1.symm.trans h3) h2 h4
          | suspend k =>
            rw [hp3, execOp] at h3
            cases hst3 : τ3.state with
            | running =>
              rw [hst3, suspendRun, getT_restack, getT_other _ hne] at h3
              exact unchanged_contra (h1.symm.trans h3) h2 h4
            | halting c3 =>
              rw [hst3, suspendRun, getT_restack, getT_other _ hne] at h3
              exact unchanged_contra (h1.symm.trans h3) h2 h4
            | settled o3 =>
              rw [hst3, suspendRun, getT_restack, getT_other _ hne] at h3
              exact unchanged_contra (h1.symm.trans h3) h2 h4
          | sleep ms k =>
            rw [hp3, execOp, getT_restack, getT_other _ hne] at h3
            exact unchanged_contra (h1.symm.trans h3) h2 h4
          | expect r k =>
            rw [hp3, execOp, getT_restack, getT_other _ hne] at h3
            exact unchanged_contra (h1.symm.trans h3) h2 h4
          | spawn op k =>
            rw [hp3, execOp, getT_restack, getT_other _ hne,
              getT_append _ _ _ (getT_lt h1)] at h3
            exact unchanged_contra (h1.symm.trans h3) h2 h4
          | halt t k =>
            rw [hp3, execOp, getT_restack] at h3
            have h1b : getT (setT w i2
                { τ3 with fstat := .ready { fr3 with prog := k } }) i = some τ := by
              rw [getT_other _ hne]
              exact h1
            exact applyHalt_map_contra h1b h2 h3 h4
          | haltAwait t k =>
            rw [hp3, execOp] at h3
            obtain ⟨τ4, h1a, h2a⟩ := applyHalt_parked (w := w) (t := t) h1 h2
            cases hga : getT (applyHalt w t) t with
            | none =>
              rw [hga, haltAwaitT, getT_restack, getT_other _ hne, h1a] at h3
              exact unchanged_contra h3 h2a h4
            | some σa =>
              rw [hga, haltAwaitT] at h3
              cases hsa : σa.state with
              | settled oa =>
                rw [hsa, haltAwaitS, getT_restack, getT_other _ hne, h1a] at h3
                exact unchanged_contra h3 h2a h4
              | running =>
                rw [hsa, haltAwaitS, getT_restack, getT_other _ hne, h1a] at h3
                exact unchanged_contra h3 h2a h4
              | halting ca =>
                rw [hsa, haltAwaitS, getT_restack, getT_other _ hne, h1a] at h3
                exact unchanged_contra h3 h2a h4
          | await t k =>
            rw [hp3, execOp] at h3
            cases hga : getT w t with
            | none =>
              rw [hga, awaitT, getT_restack, getT_other _ hne] at h3
              exact unchanged_contra (h1.symm.trans h3) h2 h4
            | some σa =>
              rw [hga, awaitT] at h3
              cases hsa : σa.state with
              | settled oa =>
                rw [hsa, awaitS, getT_restack, getT_other _ hne] at h3
                exact unchanged_contra (h1.symm.trans h3) h2 h4
              | running =>
                rw [hsa, awaitS, getT_restack, getT_other _ hne] at h3
                exact unchanged_contra (h1.symm.trans h3) h2 h4
              | halting ca =>
                rw [hsa, awaitS, getT_restack, getT_other _ hne] at h3
                exact unchanged_contra (h1.symm.trans h3) h2 h4
          | send m k =>
            rw [hp3, execOp, getT_restack] at h3
            have h1b : getT (setT w i2
                { τ3 with fstat := .ready { fr3 with prog := k } }) i = some τ := by
              rw [getT_other _ hne]
              exact h1
            rw [deliverAll_parked_waitHalt h1b h2] at h3
            exact unchanged_contra h3 h2 h4
          | subscribe k =>
            rw [hp3, execOp, getT_restack, getT_other _ hne] at h3
            exact unchanged_contra (h1.symm.trans h3) h2 h4
          | next ss k =>
            rw [hp3, execOp] at h3
            cases hb : w.subs[ss]? with
            | none =>
              rw [hb, nextBuf, getT_restack, getT_other _ hne] at h3
              exact unchanged_contra (h1.symm.trans h3) h2 h4
            | some l =>
              cases l with
              | nil =>
                rw [hb, nextBuf, getT_restack, getT_other _ hne] at h3
                exact unchanged_contra (h1.symm.trans h3) h2 h4
              | cons m2 ms =>
                rw [hb, nextBuf, getT_restack, getT_other _ hne] at h3
                exact unchanged_contra (h1.symm.trans h3) h2 h4
          | emit a k =>
            rw [hp3, execOp, getT_restack, getT_other _ hne] at h3
            exact unchanged_contra (h1.symm.trans h3) h2 h4
          | tryFinally b f k =>
            rw [hp3, execOp, getT_restack, getT_other _ hne] at h3
            exact unchanged_contra (h1.symm.trans h3) h2 h4
          | tryCatch b hh k =>
            rw [hp3, execOp, getT_restack, getT_other _ hne] at h3
            exact unchanged_contra (h1.symm.trans h3) h2 h4
    | checkT i2 =>
      rw [hs] at h3
      rw [microStepJ, execCheck] at h3 ⊢
      cases hg2 : getT w i2 with
      | none =>
        rw [hg2, execCheckT] at h3
        exact unchanged_contra (h1.symm.trans h3) h2 h4
      | some τ3 =>
        rw [hg2] at h3
        rw [execCheckT] at h3 ⊢
        cases hst3 : τ3.state with
        | settled o3 =>
          rw [hst3, execCheckS] at h3
          exact unchanged_contra (h1.symm.trans h3) h2 h4
        | running =>
          rw [hst3] at h3
          rw [execCheckS] at h3 ⊢
          cases hf3 : τ3.fstat with
          | ready fr3 =>
            rw [hf3, execCheckR] at h3
            exact unchanged_contra (h1.symm.trans h3) h2 h4
          | parked fr3 pk3 =>
            rw [hf3, execCheckR] at h3
            exact unchanged_contra (h1.symm.trans h3) h2 h4
          | fdone r3 =>
            rw [hf3] at h3
            rw [execCheckR] at h3 ⊢
            exact completeTask_safety rest w i2 i j τ3 τ τ2 fr hg2 h1 h2 h3 h4
        | halting c3 =>
          rw [hst3] at h3
          rw [execCheckS] at h3 ⊢
          exact completeTask_safety rest w i2 i j τ3 τ τ2 fr hg2 h1 h2 h3 h4

/-- C6: for every task T, the future returned by halt(T) resolves exactly
when T is Settled and never before - universally, a frame parked awaiting
the halt of task j is resumed by a machine step only if j is Settled
after that step; and in the scenario where the halted worker's cleanup
contains a suspending sleep, awaiting halt does not complete until that
cleanup has finished running (the cleanup marker and the worker's
settlement are both logged strictly before the post-halt marker), with
the run returning normally. -/
theorem claim6_halt_resolves_at_settlement :
    (∀ (w : World) (i j : Nat) (τ τ2 : TaskR) (fr : Frame),
      getT w i = some τ →
      τ.fstat = .parked fr (.waitHalt j) →
      getT (microStep w) i = some τ2 →
      τ2.fstat = .ready fr →
      ∃ σ o, getT (microStep w) j = some σ ∧ σ.state = .settled o) ∧
    evBefore (.emitE cleanupM) (.emitE afterHaltM) (runOp 300 haltAwaitCleanup).log = true ∧
    evBefore (.settleE 1 .halted) (.emitE afterHaltM) (runOp 300 haltAwaitCleanup).log = true ∧
    awaitResult (runOp 300 haltAwaitCleanup) = some (.rok 0) :=
  ⟨halt_waiter_safety, by decide, by decide, by decide⟩

/-- A concrete world for the C6 witness: task 0 is Halting with a finished
teardown, task 1 is parked awaiting halt of task 0, and the settlement
bookkeeping of task 0 is the pending job. -/
def w6ex : World :=
  ⟨[⟨none, [], .halting .chalted, .fdone (.tornR none)⟩,
    ⟨none, [], .running, .parked ⟨.ret 0, [], false, none⟩ (.waitHalt 0)⟩],
   [], 0, [], [.checkT 0]⟩

/-- Witness for C6: in `w6ex`, the machine step that resumes the
halt awaiter (task 1 becomes ready with its stored frame) settles task 0. -/
theorem claim6_witness :
    ∃ σ o, getT (microStep w6ex) 0 = some σ ∧ σ.state = .settled o :=
  claim6_halt_resolves_at_settlement.1 w6ex 1 0
    ⟨none, [], .running, .parked ⟨.ret 0, [], false, none⟩ (.waitHalt 0)⟩
    ⟨none, [], .running, .ready ⟨.ret 0, [], false, none⟩⟩
    ⟨.ret 0, [], false, none⟩ rfl rfl rfl rfl

/-- Witness for C8: the factory throwing boom makes the handle returned by
run reject with boom. -/
theorem claim8_witness :
    awaitResult (runFactory (.ferr .boom)) = some (.rerr .boom) :=
  claim8_factory_exception_rejects_handle .boom

end Effection
